import Mathlib

/-
Verification of the Gmail MCP server core against its design document.

Source-side definitions are shallow embeddings of the TypeScript source
(tool-handlers processBatches; the index.ts authenticate flow: port binding,
callback construction, HTTP request handling; credential persistence).
Spec-side definitions (named with a Spec suffix or documented as such) restate
the design document in order to compare the two.

Mutable accumulator arrays of the source (successes.push, failures.push)
become accumulator arguments; the unbounded while/for loops become
fuel-indexed functions where the source can diverge, with divergence
modelled as the result none for every fuel.
-/

universe u v w

variable {α : Type u} {β : Type v} {ε : Type w}

/-- Embedding of the inner per-item retry loop of processBatches
(tool-handlers, the for-loop inside the catch block): each item of the
failed batch is retried individually via processFn [item]; a success is
appended to the successes accumulator, a failure is appended to the
failures accumulator as an (item, error) pair. -/
def retryLoop (processFn : List α → Except ε (List β)) :
    List α → List β → List (α × ε) → List β × List (α × ε)
  | [], successes, failures => (successes, failures)
  | item :: rest, successes, failures =>
    match processFn [item] with
    | .ok result => retryLoop processFn rest (successes ++ result) failures
    | .error itemError =>
        retryLoop processFn rest successes (failures ++ [(item, itemError)])

/-- Embedding of the main loop of processBatches
(for (let i = 0; i < items.length; i += batchSize)).  The loop index i is
replaced by the remaining suffix of items; one fuel unit is spent per
iteration, and none models divergence (the source loop never exits when
batchSize = 0 and items is non-empty).  Each iteration takes the next
batch, tries processFn on the whole batch, and on failure falls back to
the per-item retry loop. -/
def processBatchesGo (processFn : List α → Except ε (List β)) (batchSize : Nat) :
    Nat → List α → List β → List (α × ε) → Option (List β × List (α × ε))
  | _, [], successes, failures => some (successes, failures)
  | 0, _ :: _, _, _ => none
  | fuel + 1, item :: rest, successes, failures =>
    let batch := (item :: rest).take batchSize
    match processFn batch with
    | .ok results =>
        processBatchesGo processFn batchSize fuel ((item :: rest).drop batchSize)
          (successes ++ results) failures
    | .error _ =>
        let sf := retryLoop processFn batch successes failures
        processBatchesGo processFn batchSize fuel ((item :: rest).drop batchSize) sf.1 sf.2

/-- Embedding of processBatches (tool-handlers): run the batch loop starting
from empty accumulators.  A fuel of items.length is enough for every
batchSize at least 1, since every iteration consumes at least one item. -/
def processBatches (processFn : List α → Except ε (List β)) (batchSize : Nat)
    (items : List α) : Option (List β × List (α × ε)) :=
  processBatchesGo processFn batchSize items.length items [] []

/-- Spec-side description of the per-item fallback: process the items of a
failed chunk one at a time, in order; item-level successes contribute their
results, item-level failures are recorded as (item, reason) pairs. -/
def itemwise (processFn : List α → Except ε (List β)) :
    List α → List β × List (α × ε)
  | [] => ([], [])
  | item :: rest =>
    let tail := itemwise processFn rest
    match processFn [item] with
    | .ok result => (result ++ tail.1, tail.2)
    | .error e => (tail.1, (item, e) :: tail.2)

/-- Spec-side description of the handling of one chunk: invoke the operation
on the whole chunk; on success record its results and no failures (the chunk
is never re-attempted), on failure retry each item of the chunk individually
(the chunk-level error itself is dropped, never propagated). -/
def handleChunk (processFn : List α → Except ε (List β)) (chunk : List α) :
    List β × List (α × ε) :=
  match processFn chunk with
  | .ok results => (results, [])
  | .error _ => itemwise processFn chunk

/-- Spec-side description of the whole run: partition items into contiguous
chunks of batchSize (the last chunk may be smaller), handle the chunks
sequentially in order, and concatenate the per-chunk successes and failures.
The max 1 batchSize is only there to make the recursion well founded; for
batchSize at least 1 it coincides with batchSize. -/
def runSpec (processFn : List α → Except ε (List β)) (batchSize : Nat) :
    List α → List β × List (α × ε)
  | [] => ([], [])
  | item :: rest =>
    ((handleChunk processFn ((item :: rest).take (max 1 batchSize))).1 ++
       (runSpec processFn batchSize ((item :: rest).drop (max 1 batchSize))).1,
     (handleChunk processFn ((item :: rest).take (max 1 batchSize))).2 ++
       (runSpec processFn batchSize ((item :: rest).drop (max 1 batchSize))).2)
  termination_by l => l.length
  decreasing_by
    all_goals simp [List.length_drop]

/-- Operation that succeeds on every call and echoes its input, returning one
result per item; used to instantiate the universally quantified theorems. -/
def processFnEcho : List String → Except Unit (List String) :=
  fun xs => Except.ok xs

/-- Operation of the worked example in the design document: fails on the
whole chunk ["c", "d"] and succeeds, echoing its input, on every other call
(in particular on every single-item call). -/
def processFnExample : List String → Except Unit (List String) :=
  fun xs => if xs = ["c", "d"] then Except.error () else Except.ok xs

/-- Split a character list at every occurrence of a separator character;
used to split a query string at the ampersands, as URLSearchParams does. -/
def splitOnChar (sep : Char) : List Char → List (List Char)
  | [] => [[]]
  | c :: rest =>
    if c = sep then [] :: splitOnChar sep rest
    else
      match splitOnChar sep rest with
      | [] => [[c]]
      | grp :: grps => (c :: grp) :: grps

/-- Query portion of a request URL: everything after the first question mark,
empty when there is none (new URL(req.url, base).searchParams reads this). -/
def queryOf : List Char → List Char
  | [] => []
  | c :: rest => if c = '?' then rest else queryOf rest

/-- Split one key=value segment at its first equals sign; a segment without
an equals sign has an empty value, further equals signs stay in the value,
as URLSearchParams does. -/
def keyValOf : List Char → List Char × List Char
  | [] => ([], [])
  | c :: rest =>
    if c = '=' then ([], rest)
    else ((keyValOf rest).1.cons c, (keyValOf rest).2)

/-- Parameter list of a request URL in order, empty segments skipped, as
URLSearchParams does.  Percent-decoding is not modelled; the claims under
verification only involve URLs without escape sequences. -/
def paramsOf (url : List Char) : List (List Char × List Char) :=
  (splitOnChar '&' (queryOf url)).filterMap (fun kv =>
    match kv with
    | [] => none
    | _ => some (keyValOf kv))

/-- Embedding of url.searchParams.get(key): value of the first parameter with
the given key, none when the key is absent. -/
def getParam (url : List Char) (key : List Char) : Option (List Char) :=
  ((paramsOf url).find? (fun p => p.1 == key)).map (fun p => p.2)

/-- Action the request handler of authenticate takes on one incoming request
(index.ts, server.on request): ignore requests whose URL does not start with
the callback path; answer 400 and reject with a no-code error when the code
parameter is absent or empty (JS treats both null and the empty string as
falsy); otherwise exchange the code. -/
inductive HandlerAction
  | ignore
  | rejectNoCode
  | exchange (code : String)
deriving DecidableEq

/-- Embedding of the request handler of authenticate: the guard is
req.url.startsWith(pathName) on the full URL (query string included), and the
code parameter is read from the query string. -/
def handleRequest (pathName url : List Char) : HandlerAction :=
  if pathName.isPrefixOf url then
    match getParam url "code".data with
    | none => HandlerAction.rejectNoCode
    | some [] => HandlerAction.rejectNoCode
    | some code => HandlerAction.exchange (String.mk code)
  else HandlerAction.ignore

/-- Errors with which the promise returned by authenticate can be rejected:
the no-code rejection (reject(new Error(.No code provided.))) and the token
exchange failure (the catch branch around oauth2Client.getToken). -/
inductive FlowError
  | noCode
  | exchangeFailed
deriving DecidableEq

/-- State of the promise returned by authenticate: resolve and reject settle
it only once; later calls are no-ops. -/
inductive PromiseState
  | pending
  | resolved
  | rejected (e : FlowError)
deriving DecidableEq

/-- Settle a promise: the first resolution wins, a settled promise never
changes. -/
def settle (p : PromiseState) (outcome : PromiseState) : PromiseState :=
  match p with
  | PromiseState.pending => outcome
  | _ => p

/-- State of the callback listener: whether the HTTP server still accepts
connections, and the state of the awaited promise. -/
structure ListenerState where
  serverOpen : Bool
  promise : PromiseState
deriving DecidableEq

/-- Embedding of one request arriving at the HTTP server of authenticate.
A closed server accepts no further requests.  An ignored request changes
nothing.  A no-code request answers 400 and rejects the promise, without
closing the server.  A code request runs the token exchange: on success the
handler answers 200, closes the server and resolves; on failure it answers
500 and rejects, without closing the server (index.ts: server.close() is
called only on the success path). -/
def stepRequest (pathName : List Char) (exchangeOk : String → Bool)
    (st : ListenerState) (url : List Char) : ListenerState :=
  if st.serverOpen then
    match handleRequest pathName url with
    | HandlerAction.ignore => st
    | HandlerAction.rejectNoCode =>
        { st with promise := settle st.promise (PromiseState.rejected FlowError.noCode) }
    | HandlerAction.exchange code =>
        if exchangeOk code then
          { serverOpen := false, promise := settle st.promise PromiseState.resolved }
        else
          { st with
            promise := settle st.promise (PromiseState.rejected FlowError.exchangeFailed) }
  else st

/-- Run the listener over a sequence of incoming requests in arrival order. -/
def runRequests (pathName : List Char) (exchangeOk : String → Bool)
    (st : ListenerState) (urls : List (List Char)) : ListenerState :=
  urls.foldl (stepRequest pathName exchangeOk) st

/-- Path portion of a request URL: everything before the first question
mark. -/
def pathOf (url : List Char) : List Char :=
  url.takeWhile (fun c => !(c == '?'))

/-- Decimal digit character for a value below ten. -/
def digitChar (n : Nat) : Char :=
  Char.ofNat (48 + n)

/-- Numeric value of a decimal digit character. -/
def digitVal (c : Char) : Nat :=
  c.toNat - 48

/-- Decimal notation of a natural number, most significant digit first; this
is what the JS template string and JSON.stringify produce for a non-negative
integer. -/
def natToDec (n : Nat) : List Char :=
  if h : n < 10 then [digitChar n]
  else natToDec (n / 10) ++ [digitChar (n % 10)]
  termination_by n
  decreasing_by
    exact Nat.div_lt_self (by omega) (by omega)

/-- Longest digit run at the head of a character list, with the remainder. -/
def takeDigits : List Char → List Char × List Char
  | [] => ([], [])
  | c :: cs =>
    if c.isDigit then ((takeDigits cs).1.cons c, (takeDigits cs).2)
    else ([], c :: cs)

/-- Value of a digit run read left to right. -/
def decValue (ds : List Char) : Nat :=
  ds.foldl (fun a c => a * 10 + digitVal c) 0

/-- Read a decimal number at the head of a character list; fails when no
digit is present. -/
def parseNatLead (cs : List Char) : Option (Nat × List Char) :=
  if (takeDigits cs).1 = [] then none
  else some (decValue (takeDigits cs).1, (takeDigits cs).2)

/-- Outcome the operating system gives one listen attempt on a port: bound
(reporting the actually bound port, which for a request of port 0 is an
ephemeral port of the OS), address in use, or another bind error with its
code. -/
inductive BindResult
  | bound (actualPort : Nat)
  | addrInUse
  | otherError (code : String)

/-- Result of the port negotiation: a bound port, or a fatal exit
(process.exit(1)). -/
inductive PortOutcome
  | ok (port : Nat)
  | fatalExit
deriving DecidableEq

/-- Embedding of tryListen in authenticate (index.ts): try the given port;
on an EADDRINUSE error retry with port 0 (an OS-chosen ephemeral port); on
any other bind error exit fatally.  The recursion is fuel-indexed because
the source recursion is unbounded when the OS keeps answering
address-in-use. -/
def tryListen (os : Nat → BindResult) : Nat → Nat → Option PortOutcome
  | 0, _ => none
  | fuel + 1, p =>
    match os p with
    | BindResult.bound actual => some (PortOutcome.ok actual)
    | BindResult.addrInUse => tryListen os fuel 0
    | BindResult.otherError _ => some PortOutcome.fatalExit

/-- OAuth client key material (client_id and client_secret of the keys
file). -/
structure OAuthKeys where
  client_id : String
  client_secret : String
deriving DecidableEq

/-- Embedding of the OAuth2Client constructor arguments: the third argument
is the redirect URI the client uses both in generateAuthUrl and in the token
exchange. -/
structure OAuth2Client where
  clientId : String
  clientSecret : String
  redirectUri : String
deriving DecidableEq

/-- Scopes requested by authenticate. -/
def gmailScopes : List String :=
  ["https://www.googleapis.com/auth/gmail.modify",
   "https://www.googleapis.com/auth/gmail.settings.basic"]

/-- Final callback URL of authenticate:
http://host:finalPort followed by pathName (the JS template string, with the
port printed in decimal). -/
def finalCallback (host : String) (finalPort : Nat) (pathName : String) : String :=
  "http://" ++ host ++ ":" ++ String.mk (natToDec finalPort) ++ pathName

/-- Contract of generateAuthUrl of the google-auth-library: the produced
authorization URL carries the access type, the scopes, the response type,
the client id, and as its final parameter the redirect URI configured in the
client. -/
def generateAuthUrl (client : OAuth2Client) (scopes : List String) : String :=
  ("https://accounts.google.com/o/oauth2/v2/auth?access_type=offline&scope="
      ++ String.intercalate "%20" scopes
      ++ "&response_type=code&client_id=" ++ client.clientId)
    ++ "&redirect_uri=" ++ client.redirectUri

/-- Contract of getToken of the google-auth-library: the token exchange
request carries the redirect URI configured in the client. -/
def tokenExchangeRedirectUri (client : OAuth2Client) : String :=
  client.redirectUri

/-- State of authenticate after the listener is bound and the authorization
URL constructed: the actually bound port, the recreated OAuth client, and
the authorization URL presented to the user. -/
structure ListenerReady where
  boundPort : Nat
  client : OAuth2Client
  authUrl : String
deriving DecidableEq

/-- Result of the binding phase of authenticate: fatal exit, or ready with a
bound listener. -/
inductive AuthStart
  | fatal
  | ready (st : ListenerReady)
deriving DecidableEq

/-- Embedding of authenticate up to the construction of the authorization
URL (index.ts): negotiate the port with tryListen, build the final callback
URL from the actually bound port, recreate the OAuth client with that
callback, and generate the authorization URL from that client. -/
def authenticateStart (os : Nat → BindResult) (fuel : Nat) (keys : OAuthKeys)
    (host pathName : String) (preferredPort : Nat) : Option AuthStart :=
  match tryListen os fuel preferredPort with
  | none => none
  | some PortOutcome.fatalExit => some AuthStart.fatal
  | some (PortOutcome.ok finalPort) =>
    let client : OAuth2Client :=
      ⟨keys.client_id, keys.client_secret, finalCallback host finalPort pathName⟩
    some (AuthStart.ready ⟨finalPort, client, generateAuthUrl client gmailScopes⟩)

/-- Port embedded in a callback URL of the shape produced by finalCallback:
drop http://host: and read the decimal number that follows. -/
def portOfCallback (host : String) (url : String) : Option Nat :=
  (parseNatLead (url.data.drop ("http://".data ++ host.data ++ ":".data).length)).map
    (fun p => p.1)

/-- Drop an expected literal off the head of a character list; fails when the
input does not start with the literal. -/
def dropLit? (lit cs : List Char) : Option (List Char) :=
  if lit.isPrefixOf cs then some (cs.drop lit.length) else none

/-- Inverse of the JSON string escapes produced below. -/
def unescapeChar (c : Char) : Option Char :=
  if c = '"' then some '"'
  else if c = '\\' then some '\\'
  else if c = 'n' then some '\n'
  else if c = 'r' then some '\r'
  else if c = 't' then some '\t'
  else none

/-- JSON escape of one character, as JSON.stringify produces it for the
quote, the backslash and the common control characters (other control
characters, which do not occur in token material, are not modelled). -/
def escapeChar (c : Char) : List Char :=
  if c = '"' then ['\\', '"']
  else if c = '\\' then ['\\', '\\']
  else if c = '\n' then ['\\', 'n']
  else if c = '\r' then ['\\', 'r']
  else if c = '\t' then ['\\', 't']
  else [c]

/-- JSON escape of a character list. -/
def jsonEscape : List Char → List Char
  | [] => []
  | c :: cs => escapeChar c ++ jsonEscape cs

/-- Parse a JSON string body up to and including the closing quote,
returning the unescaped content and the remainder after the quote. -/
def parseStringBody : List Char → Option (List Char × List Char)
  | [] => none
  | '"' :: rest => some ([], rest)
  | '\\' :: [] => none
  | '\\' :: esc :: rest2 =>
      match unescapeChar esc, parseStringBody rest2 with
      | some c2, some sr => some (c2 :: sr.1, sr.2)
      | _, _ => none
  | c :: rest =>
      match parseStringBody rest with
      | some sr => some (c :: sr.1, sr.2)
      | none => none

/-- Token record exchanged with the token endpoint and persisted by
authenticate (fs.writeFileSync(CREDENTIALS_PATH, JSON.stringify(tokens))):
access token, optional refresh token, scope, token type and expiry
timestamp. -/
structure Credentials where
  access_token : String
  refresh_token : Option String
  scope : String
  token_type : String
  expiry_date : Nat
deriving DecidableEq

/-- Characters of the serialized record from the scope value on: the scope,
token_type and expiry_date fields and the closing brace.  The grouping of
the concatenation mirrors the steps of the parser. -/
def credScopeTail (scope tokenType : String) (expiry : Nat) : List Char :=
  jsonEscape scope.data ++ ('"' ::
    (",\"token_type\":\"".data ++
      (jsonEscape tokenType.data ++ ('"' ::
        (",\"expiry_date\":".data ++
          (natToDec expiry ++ "\x7d".data))))))

/-- Characters JSON.stringify produces for the token record: an object with
the fields in insertion order, the refresh_token field omitted when absent
(undefined fields are dropped by JSON.stringify). -/
def credChars (tokenA : String) (rt : Option String) (scope tokenType : String)
    (expiry : Nat) : List Char :=
  "\x7b\"access_token\":\"".data ++
    (jsonEscape tokenA.data ++ ('"' ::
      (",\"".data ++
        (match rt with
         | some r =>
             "refresh_token".data ++ ('"' ::
               (":\"".data ++
                 (jsonEscape r.data ++ ('"' ::
                   (",\"".data ++
                     ("scope".data ++ ('"' ::
                       (":\"".data ++ credScopeTail scope tokenType expiry))))))))
         | none =>
             "scope".data ++ ('"' ::
               (":\"".data ++ credScopeTail scope tokenType expiry))))))

/-- Serialization of the token record, as written to the credentials file. -/
def stringifyCredentials (c : Credentials) : String :=
  String.mk (credChars c.access_token c.refresh_token c.scope c.token_type c.expiry_date)

/-- Parse the serialized record from the scope value on. -/
def parseFromScopeValue (tokenA : List Char) (rt : Option (List Char))
    (cs : List Char) : Option Credentials :=
  (parseStringBody cs).bind (fun sc =>
  (dropLit? ",\"token_type\":\"".data sc.2).bind (fun cs2 =>
  (parseStringBody cs2).bind (fun tt =>
  (dropLit? ",\"expiry_date\":".data tt.2).bind (fun cs4 =>
  (parseNatLead cs4).bind (fun ne =>
  if ne.2 = "\x7d".data then
    some ⟨String.mk tokenA, rt.map String.mk, String.mk sc.1, String.mk tt.1, ne.1⟩
  else none)))))

/-- Embedding of JSON.parse for records of the persisted shape: an object
with the access_token field first, an optional refresh_token field, then
scope, token_type and expiry_date. -/
def parseCredentials (s : String) : Option Credentials :=
  (dropLit? "\x7b\"access_token\":\"".data s.data).bind (fun cs0 =>
  (parseStringBody cs0).bind (fun ta =>
  (dropLit? ",\"".data ta.2).bind (fun cs2 =>
  (parseStringBody cs2).bind (fun key =>
  (dropLit? ":\"".data key.2).bind (fun cs4 =>
  if key.1 = "refresh_token".data then
    (parseStringBody cs4).bind (fun rt =>
    (dropLit? ",\"".data rt.2).bind (fun cs6 =>
    (parseStringBody cs6).bind (fun key2 =>
    (dropLit? ":\"".data key2.2).bind (fun cs8 =>
    if key2.1 = "scope".data then parseFromScopeValue ta.1 (some rt.1) cs8
    else none))))
  else if key.1 = "scope".data then parseFromScopeValue ta.1 none cs4
  else none)))))

/-- Embedding of the save of authenticate: write the serialized record to the
credentials slot, overwriting any prior value (fs.writeFileSync). -/
def saveCredentials (slot : Option String) (c : Credentials) : Option String :=
  some (stringifyCredentials c)

/-- Embedding of the load of loadCredentials (index.ts): read the slot if it
exists and parse it back into the token record handed to setCredentials. -/
def loadCredentials (slot : Option String) : Option Credentials :=
  slot.bind (fun s => parseCredentials s)

/-- Equation lemma for runSpec on the empty list. -/
theorem runSpec_nil (processFn : List α → Except ε (List β)) (batchSize : Nat) :
    runSpec processFn batchSize [] = ([], []) := by
  rw [runSpec]

/-- Equation lemma for runSpec on a non-empty list: handle the first chunk,
then recurse on the remaining suffix. -/
theorem runSpec_cons (processFn : List α → Except ε (List β)) (batchSize : Nat)
    (item : α) (rest : List α) :
    runSpec processFn batchSize (item :: rest) =
      ((handleChunk processFn ((item :: rest).take (max 1 batchSize))).1 ++
         (runSpec processFn batchSize ((item :: rest).drop (max 1 batchSize))).1,
       (handleChunk processFn ((item :: rest).take (max 1 batchSize))).2 ++
         (runSpec processFn batchSize ((item :: rest).drop (max 1 batchSize))).2) := by
  rw [runSpec]

/-- Unfolding lemma: the retry loop is the itemwise fallback appended to the
incoming accumulators. -/
theorem retryLoop_eq (processFn : List α → Except ε (List β)) :
    ∀ (batch : List α) (s : List β) (f : List (α × ε)),
      retryLoop processFn batch s f =
        (s ++ (itemwise processFn batch).1, f ++ (itemwise processFn batch).2) := by
  intro batch
  induction batch with
  | nil =>
      intro s f
      simp [retryLoop, itemwise]
  | cons item rest ih =>
      intro s f
      simp only [retryLoop, itemwise]
      cases h : processFn [item] with
      | ok result => simp [h, ih, List.append_assoc]
      | error e => simp [h, ih]

/-- Adequacy of the fuel-indexed loop: with batchSize at least 1 and fuel at
least items.length, the source loop terminates and computes exactly the
spec-side chunked run, appended to the incoming accumulators. -/
theorem processBatchesGo_eq (processFn : List α → Except ε (List β))
    (batchSize : Nat) (hb : 1 ≤ batchSize) :
    ∀ (fuel : Nat) (items : List α) (s : List β) (f : List (α × ε)),
      items.length ≤ fuel →
      processBatchesGo processFn batchSize fuel items s f =
        some (s ++ (runSpec processFn batchSize items).1,
              f ++ (runSpec processFn batchSize items).2) := by
  intro fuel
  induction fuel with
  | zero =>
      intro items s f hlen
      have : items = [] := List.eq_nil_of_length_eq_zero (Nat.le_zero.mp hlen)
      subst this
      simp [processBatchesGo, runSpec_nil]
  | succ fuel ih =>
      intro items s f hlen
      cases items with
      | nil => simp [processBatchesGo, runSpec_nil]
      | cons item rest =>
          have hmax : max 1 batchSize = batchSize := Nat.max_eq_right hb
          have hdrop : ((item :: rest).drop batchSize).length ≤ fuel := by
            simp only [List.length_drop, List.length_cons]
            simp only [List.length_cons] at hlen
            omega
          rw [runSpec_cons, hmax]
          simp only [processBatchesGo]
          cases h : processFn ((item :: rest).take batchSize) with
          | ok results =>
              simp only [h, ih _ _ _ hdrop, handleChunk]
              simp [List.append_assoc]
          | error e =>
              rw [retryLoop_eq, ih _ _ _ hdrop]
              simp [List.append_assoc, handleChunk, h]

/-- Refinement: for every positive batchSize, processBatches terminates and
returns exactly the spec-side chunked run. -/
theorem processBatches_eq_runSpec (processFn : List α → Except ε (List β))
    (batchSize : Nat) (hb : 1 ≤ batchSize) (items : List α) :
    processBatches processFn batchSize items =
      some (runSpec processFn batchSize items) := by
  unfold processBatches
  rw [processBatchesGo_eq processFn batchSize hb items.length items [] [] (Nat.le_refl _)]
  simp

/-- Per-item fallback accounting: when the operation returns one result per
item on success, the itemwise run produces one success result or one failure
pair per input item. -/
theorem itemwise_length (processFn : List α → Except ε (List β))
    (hop : ∀ xs rs, processFn xs = Except.ok rs → rs.length = xs.length) :
    ∀ l : List α,
      (itemwise processFn l).1.length + (itemwise processFn l).2.length = l.length := by
  intro l
  induction l with
  | nil => simp [itemwise]
  | cons item rest ih =>
      simp only [itemwise]
      cases h : processFn [item] with
      | ok result =>
          have h1 : result.length = 1 := hop [item] result h
          simp only [List.length_append, List.length_cons, h1]
          omega
      | error e =>
          simp only [List.length_cons]
          omega

/-- Per-item fallback accounting: the failed items of the itemwise run form a
sublist of the chunk (each occurrence used at most once, order preserved). -/
theorem itemwise_failures_sublist (processFn : List α → Except ε (List β)) :
    ∀ l : List α, ((itemwise processFn l).2.map Prod.fst).Sublist l := by
  intro l
  induction l with
  | nil => simp [itemwise]
  | cons item rest ih =>
      simp only [itemwise]
      cases h : processFn [item] with
      | ok result => exact ih.cons item
      | error e => simpa using ih.cons₂ item

/-- Chunk accounting: one result or one failure pair per chunk item when the
operation returns one result per item on success. -/
theorem handleChunk_length (processFn : List α → Except ε (List β))
    (hop : ∀ xs rs, processFn xs = Except.ok rs → rs.length = xs.length)
    (chunk : List α) :
    (handleChunk processFn chunk).1.length + (handleChunk processFn chunk).2.length
      = chunk.length := by
  unfold handleChunk
  cases h : processFn chunk with
  | ok results => simp [hop chunk results h]
  | error e => exact itemwise_length processFn hop chunk

/-- Chunk accounting: the failed items of a chunk form a sublist of the chunk. -/
theorem handleChunk_failures_sublist (processFn : List α → Except ε (List β))
    (chunk : List α) :
    ((handleChunk processFn chunk).2.map Prod.fst).Sublist chunk := by
  unfold handleChunk
  cases h : processFn chunk with
  | ok results => simp
  | error e => exact itemwise_failures_sublist processFn chunk

/-- Whole-run accounting: the spec-side chunked run produces one success
result or one failure pair per input item. -/
theorem runSpec_length (processFn : List α → Except ε (List β)) (batchSize : Nat)
    (hop : ∀ xs rs, processFn xs = Except.ok rs → rs.length = xs.length) :
    ∀ items : List α,
      (runSpec processFn batchSize items).1.length
        + (runSpec processFn batchSize items).2.length = items.length := by
  intro items
  induction items using runSpec.induct processFn batchSize with
  | case1 => simp [runSpec_nil]
  | case2 item rest htail =>
      rw [runSpec_cons]
      have hhead := handleChunk_length processFn hop
        ((item :: rest).take (max 1 batchSize))
      have hsplit : ((item :: rest).take (max 1 batchSize)).length
          + ((item :: rest).drop (max 1 batchSize)).length
          = (item :: rest).length := by
        rw [← List.length_append, List.take_append_drop]
      simp only [List.length_append]
      omega

/-- Whole-run accounting: the failed items of the spec-side chunked run form a
sublist of the input items. -/
theorem runSpec_failures_sublist (processFn : List α → Except ε (List β))
    (batchSize : Nat) :
    ∀ items : List α,
      ((runSpec processFn batchSize items).2.map Prod.fst).Sublist items := by
  intro items
  induction items using runSpec.induct processFn batchSize with
  | case1 => simp [runSpec_nil]
  | case2 item rest htail =>
      rw [runSpec_cons]
      have hhead := handleChunk_failures_sublist processFn
        ((item :: rest).take (max 1 batchSize))
      have := List.Sublist.append hhead htail
      rw [List.take_append_drop] at this
      simpa [List.map_append] using this

/-- C1: for every input list, every chunk size at least 1, and every operation
returning exactly one result per input item on success, processBatches
returns a pair of sequences whose combined length equals the input length, in
which every input item is accounted for in exactly one of the two sequences:
the failed items form a sublist of the input (no duplication, order
preserved) and the counts add up to the input length, so no item is omitted,
regardless of how many chunk-level calls failed. -/
theorem processBatches_partition (processFn : List α → Except ε (List β))
    (batchSize : Nat) (items : List α) (hb : 1 ≤ batchSize)
    (hop : ∀ xs rs, processFn xs = Except.ok rs → rs.length = xs.length) :
    ∃ s f, processBatches processFn batchSize items = some (s, f) ∧
      s.length + f.length = items.length ∧
      (f.map Prod.fst).Sublist items := by
  refine ⟨(runSpec processFn batchSize items).1, (runSpec processFn batchSize items).2,
    ?_, ?_, ?_⟩
  · rw [processBatches_eq_runSpec processFn batchSize hb items]
  · exact runSpec_length processFn batchSize hop items
  · exact runSpec_failures_sublist processFn batchSize items

/-- Witness for C1 at a concrete input: echo operation, chunk size 2, three
items. -/
theorem processBatches_partition_witness :
    ∃ s f, processBatches processFnEcho 2 ["a", "b", "c"] = some (s, f) ∧
      s.length + f.length = (["a", "b", "c"] : List String).length ∧
      (f.map Prod.fst).Sublist ["a", "b", "c"] :=
  processBatches_partition processFnEcho 2 ["a", "b", "c"] (by decide)
    (fun xs rs h => by cases h; rfl)

/-- C2: for every items list, chunk size at least 1, and operation, the run
equals the spec-side chunked run, in which a chunk whose whole-chunk call
fails is retried item by item in order via the itemwise fallback (successes
appended, failures recorded as (item, error) pairs), a chunk whose
whole-chunk call succeeds contributes exactly its results and is never
re-attempted, and the chunk-level error is never propagated: the result is
always some pair, never an error. -/
theorem processBatches_chunk_isolation (processFn : List α → Except ε (List β))
    (batchSize : Nat) (items : List α) (hb : 1 ≤ batchSize) :
    processBatches processFn batchSize items = some (runSpec processFn batchSize items)
      ∧ (∀ chunk e, processFn chunk = Except.error e →
          handleChunk processFn chunk = itemwise processFn chunk)
      ∧ (∀ chunk rs, processFn chunk = Except.ok rs →
          handleChunk processFn chunk = (rs, [])) := by
  refine ⟨processBatches_eq_runSpec processFn batchSize hb items, ?_, ?_⟩
  · intro chunk e h
    unfold handleChunk
    rw [h]
  · intro chunk rs h
    unfold handleChunk
    rw [h]

/-- Witness for C2 at a concrete input: echo operation, chunk size 2, three
items. -/
theorem processBatches_chunk_isolation_witness :
    processBatches processFnEcho 2 ["a", "b", "c"]
        = some (runSpec processFnEcho 2 ["a", "b", "c"])
      ∧ (∀ chunk e, processFnEcho chunk = Except.error e →
          handleChunk processFnEcho chunk = itemwise processFnEcho chunk)
      ∧ (∀ chunk rs, processFnEcho chunk = Except.ok rs →
          handleChunk processFnEcho chunk = (rs, [])) :=
  processBatches_chunk_isolation processFnEcho 2 ["a", "b", "c"] (by decide)

/-- Counterexample for C9: on ["a", "b", "c", "d", "e"] with chunk size 2 and
the example operation, the code does not return the pair claimed by the
design document (successes ["a", "b", "c", "d"] with no failures): the item
"e" succeeds in its own final chunk and is a fifth success. -/
theorem processBatches_example_ne_claimed :
    processBatches processFnExample 2 ["a", "b", "c", "d", "e"] ≠
      some ((["a", "b", "c", "d"] : List String),
            ([] : List (String × Unit))) := by
  decide

/-- C9 amended: on ["a", "b", "c", "d", "e"] with chunk size 2 and the example
operation, the run returns successes ["a", "b", "c", "d", "e"] (items "c" and
"d" recovered by the per-item fallback, "e" succeeding in its own final chunk
of size 1) and no failures. -/
theorem processBatches_example :
    processBatches processFnExample 2 ["a", "b", "c", "d", "e"] =
      some ((["a", "b", "c", "d", "e"] : List String),
            ([] : List (String × Unit))) := by
  decide

/-- C10: processBatches terminates for every items list and operation whenever
batchSize is at least 1 (fuel items.length suffices, one fuel unit per loop
iteration), and the positive-chunk-size precondition is necessary: with
batchSize 0 and a non-empty items list the loop never advances and diverges,
modelled as the result none for every fuel. -/
theorem processBatches_terminates_iff_pos (processFn : List α → Except ε (List β))
    (batchSize : Nat) (items : List α) :
    (1 ≤ batchSize → ∃ r, processBatches processFn batchSize items = some r)
      ∧ (items ≠ [] →
          ∀ fuel s f, processBatchesGo processFn 0 fuel items s f = none) := by
  constructor
  · intro hb
    exact ⟨runSpec processFn batchSize items,
      processBatches_eq_runSpec processFn batchSize hb items⟩
  · intro hne
    cases items with
    | nil => exact absurd rfl hne
    | cons item rest =>
        intro fuel
        induction fuel with
        | zero =>
            intro s f
            rfl
        | succ fuel ih =>
            intro s f
            show processBatchesGo processFn 0 (fuel + 1) (item :: rest) s f = none
            simp only [processBatchesGo]
            cases h : processFn ((item :: rest).take 0) with
            | ok results =>
                rw [List.drop_zero]
                exact ih (s ++ results) f
            | error e =>
                simp only [List.take_zero, List.drop_zero, retryLoop]
                exact ih s f

/-- Witness for C10 at a concrete input: echo operation, two items; chunk size
2 terminates, chunk size 0 diverges for every fuel. -/
theorem processBatches_terminates_iff_pos_witness :
    (∃ r, processBatches processFnEcho 2 ["a", "b"] = some r)
      ∧ (∀ fuel s f, processBatchesGo processFnEcho 0 fuel ["a", "b"] s f = none) :=
  ⟨(processBatches_terminates_iff_pos processFnEcho 2 ["a", "b"]).1 (by decide),
   (processBatches_terminates_iff_pos processFnEcho 0 ["a", "b"]).2 (by decide)⟩

/-- Counterexample for C5: a callback request carrying an error query
parameter (and no code) is rejected with the missing-code failure, not with
a distinct remote-denied failure; the request handler never inspects the
error parameter. -/
theorem handleRequest_errorParam_counterexample :
    getParam "/oauth2callback?error=access_denied".data "error".data
        = some "access_denied".data
    ∧ stepRequest "/oauth2callback".data (fun _ => true)
        ⟨true, PromiseState.pending⟩ "/oauth2callback?error=access_denied".data
      = ⟨true, PromiseState.rejected FlowError.noCode⟩ := by
  decide

/-- C5 amended: every request to the callback path that carries an error
query parameter and lacks a non-empty code parameter fails with the
NoCodeProvided rejection; the code has no separate RemoteDenied outcome
(FlowError has only the noCode and exchangeFailed rejections). -/
theorem handleRequest_errorParam (pathName url e : List Char)
    (hpath : pathName.isPrefixOf url = true)
    (herr : getParam url "error".data = some e)
    (hcode : getParam url "code".data = none ∨ getParam url "code".data = some []) :
    handleRequest pathName url = HandlerAction.rejectNoCode
    ∧ ∀ (exchangeOk : String → Bool) (st : ListenerState), st.serverOpen = true →
        (stepRequest pathName exchangeOk st url).promise
          = settle st.promise (PromiseState.rejected FlowError.noCode) := by
  have hact : handleRequest pathName url = HandlerAction.rejectNoCode := by
    cases hcode with
    | inl h => simp [handleRequest, hpath, h]
    | inr h => simp [handleRequest, hpath, h]
  refine ⟨hact, ?_⟩
  intro exchangeOk st hopen
  simp [stepRequest, hopen, hact]

/-- Witness for C5 amended at the concrete denial request. -/
theorem handleRequest_errorParam_witness :
    handleRequest "/oauth2callback".data "/oauth2callback?error=access_denied".data
        = HandlerAction.rejectNoCode
    ∧ ∀ (exchangeOk : String → Bool) (st : ListenerState), st.serverOpen = true →
        (stepRequest "/oauth2callback".data exchangeOk st
            "/oauth2callback?error=access_denied".data).promise
          = settle st.promise (PromiseState.rejected FlowError.noCode) :=
  handleRequest_errorParam "/oauth2callback".data
    "/oauth2callback?error=access_denied".data "access_denied".data
    (by decide) (by decide) (Or.inl (by decide))

/-- Counterexample for C6: after the listener receives and answers an invalid
callback (correct path, no code parameter), the server is still accepting
connections: the promise is rejected but serverOpen remains true, because
server.close() is called only on the success path. -/
theorem listener_open_after_invalid_counterexample :
    stepRequest "/oauth2callback".data (fun _ => true)
        ⟨true, PromiseState.pending⟩ "/oauth2callback".data
      = ⟨true, PromiseState.rejected FlowError.noCode⟩ := by
  decide

/-- C6 amended: the capture is single-shot only on the success outcome: the
listener stops accepting connections exactly when a callback carries a code
whose token exchange succeeds; after an invalid callback (no code) or a
failed exchange the server keeps accepting connections. -/
theorem listener_single_shot_on_success (pathName url : List Char)
    (exchangeOk : String → Bool) (st : ListenerState) (hopen : st.serverOpen = true) :
    (∀ code, handleRequest pathName url = HandlerAction.exchange code →
        exchangeOk code = true →
        (stepRequest pathName exchangeOk st url).serverOpen = false)
    ∧ (handleRequest pathName url = HandlerAction.rejectNoCode →
        (stepRequest pathName exchangeOk st url).serverOpen = true)
    ∧ (∀ code, handleRequest pathName url = HandlerAction.exchange code →
        exchangeOk code = false →
        (stepRequest pathName exchangeOk st url).serverOpen = true) := by
  refine ⟨?_, ?_, ?_⟩
  · intro code hact hex
    simp [stepRequest, hopen, hact, hex]
  · intro hact
    simp [stepRequest, hopen, hact]
  · intro code hact hex
    simp [stepRequest, hopen, hact, hex]

/-- Witness for C6 amended at concrete requests. -/
theorem listener_single_shot_on_success_witness :
    (∀ code,
        handleRequest "/oauth2callback".data "/oauth2callback?code=abc".data
          = HandlerAction.exchange code →
        (fun (_ : String) => true) code = true →
        (stepRequest "/oauth2callback".data (fun _ => true)
            ⟨true, PromiseState.pending⟩ "/oauth2callback?code=abc".data).serverOpen
          = false)
    ∧ (handleRequest "/oauth2callback".data "/oauth2callback?code=abc".data
          = HandlerAction.rejectNoCode →
        (stepRequest "/oauth2callback".data (fun _ => true)
            ⟨true, PromiseState.pending⟩ "/oauth2callback?code=abc".data).serverOpen
          = true)
    ∧ (∀ code,
        handleRequest "/oauth2callback".data "/oauth2callback?code=abc".data
          = HandlerAction.exchange code →
        (fun (_ : String) => true) code = false →
        (stepRequest "/oauth2callback".data (fun _ => true)
            ⟨true, PromiseState.pending⟩ "/oauth2callback?code=abc".data).serverOpen
          = true) :=
  listener_single_shot_on_success "/oauth2callback".data
    "/oauth2callback?code=abc".data (fun _ => true)
    ⟨true, PromiseState.pending⟩ rfl

/-- Counterexample for C7: a request whose path differs from the configured
callback path (here /cbx versus /cb) is not ignored: because the guard is
startsWith on the full URL, the request is treated as the awaited callback
and resolves the flow. -/
theorem pathGuard_counterexample :
    pathOf "/cbx?code=abc".data ≠ "/cb".data
    ∧ stepRequest "/cb".data (fun _ => true)
        ⟨true, PromiseState.pending⟩ "/cbx?code=abc".data
      = ⟨false, PromiseState.resolved⟩ := by
  decide

/-- C7 amended: every request whose URL does not start with the configured
callback path is ignored (the listener state, hence the awaited promise, is
unchanged), and a subsequent request to the correct path carrying a valid
code still resolves the flow successfully.  The guard is a string-prefix
test, so a request to a different path that extends the configured path
textually is not ignored. -/
theorem ignored_request_then_resolve (pathName url1 url2 : List Char)
    (code : String) (exchangeOk : String → Bool) (st : ListenerState)
    (h1 : pathName.isPrefixOf url1 = false)
    (h2 : handleRequest pathName url2 = HandlerAction.exchange code)
    (hex : exchangeOk code = true) :
    stepRequest pathName exchangeOk st url1 = st
    ∧ runRequests pathName exchangeOk ⟨true, PromiseState.pending⟩ [url1, url2]
        = ⟨false, PromiseState.resolved⟩ := by
  have hstep : ∀ st1 : ListenerState, stepRequest pathName exchangeOk st1 url1 = st1 := by
    intro st1
    cases hso : st1.serverOpen with
    | false => simp [stepRequest, hso]
    | true => simp [stepRequest, hso, handleRequest, h1]
  refine ⟨hstep st, ?_⟩
  show stepRequest pathName exchangeOk
      (stepRequest pathName exchangeOk ⟨true, PromiseState.pending⟩ url1) url2
    = ⟨false, PromiseState.resolved⟩
  rw [hstep ⟨true, PromiseState.pending⟩]
  simp [stepRequest, h2, hex, settle]

/-- Witness for C7 amended: a favicon probe followed by the real callback. -/
theorem ignored_request_then_resolve_witness :
    stepRequest "/oauth2callback".data (fun _ => true)
        ⟨true, PromiseState.pending⟩ "/favicon.ico".data
      = ⟨true, PromiseState.pending⟩
    ∧ runRequests "/oauth2callback".data (fun _ => true)
        ⟨true, PromiseState.pending⟩ ["/favicon.ico".data, "/oauth2callback?code=abc".data]
        = ⟨false, PromiseState.resolved⟩ :=
  ignored_request_then_resolve "/oauth2callback".data "/favicon.ico".data
    "/oauth2callback?code=abc".data "abc" (fun _ => true)
    ⟨true, PromiseState.pending⟩ (by decide) (by decide) rfl

/-- Decimal digit characters are digits. -/
theorem digitChar_isDigit (n : Nat) (h : n < 10) : (digitChar n).isDigit = true := by
  interval_cases n <;> decide

/-- Reading back a decimal digit character gives the digit. -/
theorem digitVal_digitChar (n : Nat) (h : n < 10) : digitVal (digitChar n) = n := by
  interval_cases n <;> decide

/-- Decimal notation is never empty. -/
theorem natToDec_ne_nil (n : Nat) : natToDec n ≠ [] := by
  rw [natToDec]
  split
  · simp
  · simp

/-- Every character of a decimal notation is a digit. -/
theorem natToDec_digits (n : Nat) : ∀ c ∈ natToDec n, c.isDigit = true := by
  induction n using natToDec.induct with
  | case1 n h =>
      rw [natToDec, dif_pos h]
      intro c hc
      rw [List.mem_singleton.mp hc]
      exact digitChar_isDigit n h
  | case2 n h ih =>
      rw [natToDec, dif_neg h]
      intro c hc
      rcases List.mem_append.mp hc with hl | hr
      · exact ih c hl
      · rw [List.mem_singleton.mp hr]
        exact digitChar_isDigit _ (Nat.mod_lt n (by omega))

/-- Appending one digit multiplies the value by ten and adds the digit. -/
theorem decValue_append_digit (l : List Char) (c : Char) :
    decValue (l ++ [c]) = decValue l * 10 + digitVal c := by
  simp [decValue, List.foldl_append]

/-- Reading back a decimal notation gives the number: the decimal printer is
left inverse to the digit-run reader. -/
theorem decValue_natToDec (n : Nat) : decValue (natToDec n) = n := by
  induction n using natToDec.induct with
  | case1 n h =>
      rw [natToDec, dif_pos h]
      simp [decValue, digitVal_digitChar n h]
  | case2 n h ih =>
      rw [natToDec, dif_neg h, decValue_append_digit, ih,
        digitVal_digitChar _ (Nat.mod_lt n (by omega))]
      omega

/-- The digit-run reader splits a digit run followed by a non-digit exactly
at the boundary. -/
theorem takeDigits_append (ds rest : List Char)
    (hds : ∀ c ∈ ds, c.isDigit = true)
    (hrest : ∀ c, rest.head? = some c → c.isDigit = false) :
    takeDigits (ds ++ rest) = (ds, rest) := by
  induction ds with
  | nil =>
      cases rest with
      | nil => rfl
      | cons r rs => simp [takeDigits, hrest r rfl]
  | cons d ds ih =>
      have hd : d.isDigit = true := hds d (List.mem_cons_self d ds)
      have ihh := ih (fun c hc => hds c (List.mem_cons_of_mem d hc))
      simp [takeDigits, hd, ihh]

/-- Reading a decimal number back off a printed one recovers the number and
the remainder, provided the remainder does not begin with a digit. -/
theorem parseNatLead_natToDec (n : Nat) (rest : List Char)
    (hrest : ∀ c, rest.head? = some c → c.isDigit = false) :
    parseNatLead (natToDec n ++ rest) = some (n, rest) := by
  unfold parseNatLead
  rw [takeDigits_append (natToDec n) rest (natToDec_digits n) hrest]
  simp [natToDec_ne_nil, decValue_natToDec]

/-- Decimal notation is injective. -/
theorem natToDec_inj (a b : Nat) (h : natToDec a = natToDec b) : a = b := by
  have ha := decValue_natToDec a
  rw [h, decValue_natToDec] at ha
  omega

/-- Reading the port back off a callback URL built by finalCallback recovers
the port that was printed into it, provided the path does not begin with a
digit (every URL path begins with a slash). -/
theorem portOfCallback_finalCallback (host pathName : String) (p : Nat)
    (hpath : ∀ c, pathName.data.head? = some c → c.isDigit = false) :
    portOfCallback host (finalCallback host p pathName) = some p := by
  unfold portOfCallback finalCallback
  have hdata : ("http://" ++ host ++ ":" ++ String.mk (natToDec p) ++ pathName).data
      = (("http://".data ++ host.data ++ ":".data) ++ (natToDec p ++ pathName.data)) := by
    simp [String.data_append]
  rw [hdata, List.drop_left, parseNatLead_natToDec p pathName.data hpath]
  rfl

/-- C4: the listener first attempts the preferred port and reports the port
actually bound when binding succeeds; exactly on an address-in-use error it
retries with port 0 and reports the port the OS actually bound; any bind
error other than address-in-use terminates the flow fatally. -/
theorem tryListen_bind_policy (os : Nat → BindResult) (fuel preferredPort : Nat) :
    (∀ a, os preferredPort = BindResult.bound a →
        tryListen os (fuel + 2) preferredPort = some (PortOutcome.ok a))
    ∧ (∀ a, os preferredPort = BindResult.addrInUse → os 0 = BindResult.bound a →
        tryListen os (fuel + 2) preferredPort = some (PortOutcome.ok a))
    ∧ (∀ c, os preferredPort = BindResult.otherError c →
        tryListen os (fuel + 2) preferredPort = some PortOutcome.fatalExit) := by
  refine ⟨?_, ?_, ?_⟩
  · intro a h
    simp [tryListen, h]
  · intro a h h0
    simp [tryListen, h, h0]
  · intro c h
    simp [tryListen, h]

/-- Witness for C4 with an OS in which the preferred port 3000 is occupied
and port 0 binds to the ephemeral port 49152. -/
theorem tryListen_bind_policy_witness :
    (∀ a, (fun p => if p = 3000 then BindResult.addrInUse else BindResult.bound 49152) 3000
          = BindResult.bound a →
        tryListen (fun p => if p = 3000 then BindResult.addrInUse else BindResult.bound 49152)
          2 3000 = some (PortOutcome.ok a))
    ∧ (∀ a, (fun p => if p = 3000 then BindResult.addrInUse else BindResult.bound 49152) 3000
          = BindResult.addrInUse →
        (fun p => if p = 3000 then BindResult.addrInUse else BindResult.bound 49152) 0
          = BindResult.bound a →
        tryListen (fun p => if p = 3000 then BindResult.addrInUse else BindResult.bound 49152)
          2 3000 = some (PortOutcome.ok a))
    ∧ (∀ c, (fun p => if p = 3000 then BindResult.addrInUse else BindResult.bound 49152) 3000
          = BindResult.otherError c →
        tryListen (fun p => if p = 3000 then BindResult.addrInUse else BindResult.bound 49152)
          2 3000 = some PortOutcome.fatalExit) :=
  tryListen_bind_policy (fun p => if p = 3000 then BindResult.addrInUse else BindResult.bound 49152)
    0 3000

/-- C3: whenever authenticate reaches the ready state (the preferred port
bound, or the ephemeral fallback after a conflict), the redirect URI
embedded as the redirect_uri parameter of the generated authorization URL
and the redirect URI the OAuth client sends in the token exchange are the
same string (byte-identical), that string is the callback URL built from the
actually bound port, the port embedded in it reads back as the actually
bound port, and when the bound port differs from the preferred one the
redirect URI differs from the callback URL of the preferred port. -/
theorem authenticate_redirect_uri_consistent (os : Nat → BindResult) (fuel : Nat)
    (keys : OAuthKeys) (host pathName : String) (preferredPort : Nat)
    (st : ListenerReady)
    (h : authenticateStart os fuel keys host pathName preferredPort
          = some (AuthStart.ready st))
    (hpath : ∀ c, pathName.data.head? = some c → c.isDigit = false) :
    (∃ q, st.authUrl = q ++ "&redirect_uri=" ++ st.client.redirectUri)
    ∧ tokenExchangeRedirectUri st.client = st.client.redirectUri
    ∧ st.client.redirectUri = finalCallback host st.boundPort pathName
    ∧ portOfCallback host st.client.redirectUri = some st.boundPort
    ∧ (st.boundPort ≠ preferredPort →
        st.client.redirectUri ≠ finalCallback host preferredPort pathName) := by
  unfold authenticateStart at h
  cases htl : tryListen os fuel preferredPort with
  | none => rw [htl] at h; exact absurd h (by simp)
  | some outcome =>
      rw [htl] at h
      cases outcome with
      | fatalExit => exact absurd h (by simp)
      | ok finalPort =>
          simp only [Option.some.injEq] at h
          cases h with
          | refl =>
              refine ⟨⟨_, rfl⟩, rfl, rfl, ?_, ?_⟩
              · exact portOfCallback_finalCallback host pathName finalPort hpath
              · intro hne heq
                dsimp only at hne heq
                have h1 := portOfCallback_finalCallback host pathName finalPort hpath
                have h2 := portOfCallback_finalCallback host pathName preferredPort hpath
                rw [heq, h2] at h1
                exact hne (Option.some.inj h1).symm

/-- Witness for C3 with the preferred port 3000 occupied, the listener
falling back to the ephemeral port 49152. -/
theorem authenticate_redirect_uri_consistent_witness :
    (∃ q, (generateAuthUrl
        ⟨"id", "secret", finalCallback "localhost" 49152 "/oauth2callback"⟩
        gmailScopes)
      = q ++ "&redirect_uri="
          ++ (finalCallback "localhost" 49152 "/oauth2callback"))
    ∧ tokenExchangeRedirectUri
        ⟨"id", "secret", finalCallback "localhost" 49152 "/oauth2callback"⟩
      = finalCallback "localhost" 49152 "/oauth2callback"
    ∧ finalCallback "localhost" 49152 "/oauth2callback"
      = finalCallback "localhost" 49152 "/oauth2callback"
    ∧ portOfCallback "localhost" (finalCallback "localhost" 49152 "/oauth2callback")
      = some 49152
    ∧ ((49152 : Nat) ≠ 3000 →
        finalCallback "localhost" 49152 "/oauth2callback"
          ≠ finalCallback "localhost" 3000 "/oauth2callback") :=
  authenticate_redirect_uri_consistent
    (fun p => if p = 3000 then BindResult.addrInUse else BindResult.bound 49152)
    2 ⟨"id", "secret"⟩ "localhost" "/oauth2callback" 3000
    ⟨49152, ⟨"id", "secret", finalCallback "localhost" 49152 "/oauth2callback"⟩,
      generateAuthUrl
        ⟨"id", "secret", finalCallback "localhost" 49152 "/oauth2callback"⟩
        gmailScopes⟩
    rfl (by decide)

/-- Characters of a string built from a character list. -/
theorem mk_data (l : List Char) : (String.mk l).data = l := rfl

/-- Dropping a literal off a list that starts with it leaves the rest. -/
theorem dropLit?_append (lit rest : List Char) :
    dropLit? lit (lit ++ rest) = some rest := by
  unfold dropLit?
  rw [if_pos, List.drop_left]
  simp [List.isPrefixOf_iff_prefix]

/-- String-body round trip: parsing an escaped string followed by its closing
quote recovers the original characters and the remainder. -/
theorem parseStringBody_escape (s rest : List Char) :
    parseStringBody (jsonEscape s ++ '"' :: rest) = some (s, rest) := by
  induction s with
  | nil => simp [jsonEscape, parseStringBody]
  | cons c cs ih =>
      by_cases h1 : c = '"'
      · subst h1; simp [jsonEscape, escapeChar, parseStringBody, unescapeChar, ih]
      · by_cases h2 : c = '\\'
        · subst h2; simp [jsonEscape, escapeChar, parseStringBody, unescapeChar, ih]
        · by_cases h3 : c = '\n'
          · subst h3; simp [jsonEscape, escapeChar, parseStringBody, unescapeChar, ih]
          · by_cases h4 : c = '\r'
            · subst h4; simp [jsonEscape, escapeChar, parseStringBody, unescapeChar, ih]
            · by_cases h5 : c = '\t'
              · subst h5
                simp [jsonEscape, escapeChar, parseStringBody, unescapeChar, ih]
              · simp [jsonEscape, escapeChar, parseStringBody, h1, h2, h3, h4, h5, ih]

/-- Escape-free strings (such as the field names) parse to themselves. -/
theorem parseStringBody_plain (s rest : List Char) (hs : jsonEscape s = s) :
    parseStringBody (s ++ '"' :: rest) = some (s, rest) := by
  conv_lhs => rw [← hs]
  exact parseStringBody_escape s rest

/-- Round trip of the record serialization: parsing a serialized token record
recovers the record, refresh token present or not. -/
theorem parseCredentials_stringifyCredentials (c : Credentials) :
    parseCredentials (stringifyCredentials c) = some c := by
  obtain ⟨a, r, s, t, e⟩ := c
  have hbrace : ∀ cc : Char, ("\x7d".data : List Char).head? = some cc →
      cc.isDigit = false := by decide
  have htail : parseFromScopeValue a.data (r.map String.data) (credScopeTail s t e)
      = some ⟨a, r, s, t, e⟩ := by
    unfold parseFromScopeValue credScopeTail
    rw [parseStringBody_escape]
    simp only [Option.some_bind]
    rw [dropLit?_append]
    simp only [Option.some_bind]
    rw [parseStringBody_escape]
    simp only [Option.some_bind]
    rw [dropLit?_append]
    simp only [Option.some_bind]
    rw [parseNatLead_natToDec e _ hbrace]
    simp only [Option.some_bind]
    rw [if_pos trivial]
    cases r with
    | none => rfl
    | some rv => rfl
  cases r with
  | none =>
      show parseCredentials (String.mk (credChars a none s t e)) = _
      unfold parseCredentials
      rw [mk_data,
        show credChars a none s t e
          = "\x7b\"access_token\":\"".data ++
              (jsonEscape a.data ++ ('"' ::
                (",\"".data ++
                  ("scope".data ++ ('"' ::
                    (":\"".data ++ credScopeTail s t e)))))) from rfl,
        dropLit?_append]
      simp only [Option.some_bind]
      rw [parseStringBody_escape]
      simp only [Option.some_bind]
      rw [dropLit?_append]
      simp only [Option.some_bind]
      rw [parseStringBody_plain "scope".data _ rfl]
      simp only [Option.some_bind]
      rw [dropLit?_append]
      simp only [Option.some_bind]
      rw [if_neg (show ¬ ("scope".data : List Char) = "refresh_token".data by decide),
        if_pos trivial]
      exact htail
  | some rv =>
      show parseCredentials (String.mk (credChars a (some rv) s t e)) = _
      unfold parseCredentials
      rw [mk_data,
        show credChars a (some rv) s t e
          = "\x7b\"access_token\":\"".data ++
              (jsonEscape a.data ++ ('"' ::
                (",\"".data ++
                  ("refresh_token".data ++ ('"' ::
                    (":\"".data ++
                      (jsonEscape rv.data ++ ('"' ::
                        (",\"".data ++
                          ("scope".data ++ ('"' ::
                            (":\"".data ++ credScopeTail s t e)))))))))))) from rfl,
        dropLit?_append]
      simp only [Option.some_bind]
      rw [parseStringBody_escape]
      simp only [Option.some_bind]
      rw [dropLit?_append]
      simp only [Option.some_bind]
      rw [parseStringBody_plain "refresh_token".data _ rfl]
      simp only [Option.some_bind]
      rw [dropLit?_append]
      simp only [Option.some_bind]
      rw [if_pos trivial, parseStringBody_escape]
      simp only [Option.some_bind]
      rw [dropLit?_append]
      simp only [Option.some_bind]
      rw [parseStringBody_plain "scope".data _ rfl]
      simp only [Option.some_bind]
      rw [dropLit?_append]
      simp only [Option.some_bind]
      rw [if_pos trivial]
      exact htail

/-- C8: persisting any token record with save and then loading it, in the
same process or in a fresh instance reading the same durable slot, yields a
record equal to the one saved: the save overwrites whatever the slot held
before, and the serialization format round-trips losslessly. -/
theorem credentials_save_load_round_trip (slot : Option String) (c : Credentials) :
    loadCredentials (saveCredentials slot c) = some c := by
  unfold loadCredentials saveCredentials
  simp only [Option.some_bind]
  exact parseCredentials_stringifyCredentials c
